import Mathlib

/-!
Shallow embedding of the rclrust message/service/action schema compiler
frontend (crates rclrust-msg-parse and rclrust-msg-gen).  Text is modelled
as `List Char`; fallible parsing returns `Option`/`Except`.  Functions keep
the source's names where Lean allows it.  Components of the repository
whose source files are not available (the literal parsers, the type
grammar, the identifier grammar and the message-body parser) are modelled
from the specification and marked as such in their doc comments.
-/

namespace RclMsg

/-! ## Character classes -/

def upChars : List Char := "ABCDEFGHIJKLMNOPQRSTUVWXYZ".toList

def lowChars : List Char := "abcdefghijklmnopqrstuvwxyz".toList

def digChars : List Char := "0123456789".toList

/-- Pairs of corresponding upper-case and lower-case ASCII letters. -/
def upLowPairs : List (Char × Char) := upChars.zip lowChars

def isUp (c : Char) : Bool := (upLowPairs.find? (fun p => p.1 == c)).isSome

def isLo (c : Char) : Bool := lowChars.contains c

def isDig (c : Char) : Bool := digChars.contains c

/-- ASCII lower-casing of a single character (non-letters unchanged). -/
def toLo (c : Char) : Char :=
  match upLowPairs.find? (fun p => p.1 == c) with
  | some p => p.2
  | none => c

def isIdentChar (c : Char) : Bool := isUp c || isLo c || isDig c || c == '_'

def isSpaceTab (c : Char) : Bool := c == ' ' || c == '\t'

/-- Numeric value of a digit string (most significant digit first). -/
def natOfDigits (ds : List Char) : Nat :=
  ds.foldl (fun n c => n * 10 + (c.toNat - 48)) 0

/-! ## The type model (rclrust-msg-parse/src/types) -/

/-- Closed enumeration of basic (scalar) primitive types. -/
inductive BasicType where
  | bool | byte | char
  | float32 | float64
  | i8 | i16 | i32 | i64
  | u8 | u16 | u32 | u64
deriving DecidableEq

/-- Narrow or wide string type, unbounded or with a capacity bound. -/
inductive GenericString where
  | string
  | boundedString (max_size : Nat)
  | wstring
  | boundedWString (max_size : Nat)
deriving DecidableEq

/-- Unbounded narrow or wide string (the only string types legal for constants). -/
inductive GenericUnboundedString where
  | string
  | wstring
deriving DecidableEq

def GenericUnboundedString.toGenericString : GenericUnboundedString → GenericString
  | .string => .string
  | .wstring => .wstring

/-- A bare (package-ambiguous) type reference. -/
structure NamedType where
  name : List Char
deriving DecidableEq

/-- A package-qualified type reference with a namespace tag. -/
structure NamespacedType where
  package : List Char
  ns : List Char
  name : List Char
deriving DecidableEq

inductive NestableType where
  | basicType (t : BasicType)
  | namedType (t : NamedType)
  | namespacedType (t : NamespacedType)
  | genericString (t : GenericString)
deriving DecidableEq

inductive PrimitiveType where
  | basicType (t : BasicType)
  | genericUnboundedString (t : GenericUnboundedString)
deriving DecidableEq

structure ArrayT where
  value_type : NestableType
  size : Nat
deriving DecidableEq

structure SequenceT where
  value_type : NestableType
deriving DecidableEq

structure BoundedSequenceT where
  value_type : NestableType
  max_size : Nat
deriving DecidableEq

structure PrimitiveArray where
  value_type : PrimitiveType
  size : Nat
deriving DecidableEq

inductive MemberType where
  | nestableType (t : NestableType)
  | array (t : ArrayT)
  | sequence (t : SequenceT)
  | boundedSequence (t : BoundedSequenceT)
deriving DecidableEq

inductive ConstantType where
  | primitiveType (t : PrimitiveType)
  | primitiveArray (t : PrimitiveArray)
deriving DecidableEq

structure Member where
  name : List Char
  type : MemberType
  default : Option (List (List Char))
deriving DecidableEq

structure Constant where
  name : List Char
  type : ConstantType
  value : List (List Char)
deriving DecidableEq

structure Message where
  package : List Char
  name : List Char
  members : List Member
  constants : List Constant
deriving DecidableEq

structure Service where
  package : List Char
  name : List Char
  request : Message
  response : Message
deriving DecidableEq

structure Action where
  package : List Char
  name : List Char
  goal : Message
  result : Message
  feedback : Message
deriving DecidableEq

/-- Error taxonomy of the parser crates (parser/error.rs, modelled after the
variants used by the sources under src/; `ensureViolation` stands for a bare
`ensure!` failure). -/
inductive RclMsgError where
  | parseMemberError (input : List Char)
  | parseConstantError (input : List Char)
  | parseDefaultValueError (value : List Char)
  | parseConstantValueError (value : List Char)
  | invalidDefaultError (typeName : List Char)
  | invalidServiceSpecification (msg : List Char)
  | invalidActionSpecification (msg : List Char)
  | ensureViolation
deriving DecidableEq

def isErrB {α : Type} : Except RclMsgError α → Bool
  | .error _ => true
  | .ok _ => false

def isOkB {α : Type} : Except RclMsgError α → Bool
  | .error _ => false
  | .ok _ => true

instance {ε α : Type} [DecidableEq ε] [DecidableEq α] : DecidableEq (Except ε α) :=
  fun a b =>
    match a, b with
    | .ok x, .ok y =>
      if h : x = y then isTrue (by rw [h]) else isFalse (fun hh => h (Except.ok.inj hh))
    | .error x, .error y =>
      if h : x = y then isTrue (by rw [h]) else isFalse (fun hh => h (Except.error.inj hh))
    | .ok _, .error _ => isFalse (fun hh => Except.noConfusion hh)
    | .error _, .ok _ => isFalse (fun hh => Except.noConfusion hh)

/-- Whether an error is the service separator-count (structural) error. -/
def isServiceSpecError : RclMsgError → Bool
  | .invalidServiceSpecification _ => true
  | _ => false

/-! ## Low-level text parsers

A parser takes the input character list and returns `some (rest, value)`
on success (`rest` being the unconsumed suffix, as with nom) or `none` on
failure. -/

/-- Longest nonempty run of characters satisfying `p` (nom `take_while1`). -/
def takeWhile1 (p : Char → Bool) (l : List Char) : Option (List Char × List Char) :=
  if (l.takeWhile p).isEmpty then none
  else some (l.drop (l.takeWhile p).length, l.takeWhile p)

/-- nom `space0`: zero or more spaces or tabs, never fails. -/
def space0 (l : List Char) : List Char :=
  l.drop (l.takeWhile isSpaceTab).length

/-- nom `space1`: one or more spaces or tabs. -/
def space1 (l : List Char) : Option (List Char × List Char) :=
  takeWhile1 isSpaceTab l

/-- Single expected character (nom `char`). -/
def chrTok (c : Char) : List Char → Option (List Char)
  | [] => none
  | c' :: rest => if c' == c then some rest else none

def digits1 (l : List Char) : Option (List Char × List Char) :=
  takeWhile1 isDig l

/-! ## Literal parsers

Modelled from the spec: the literal parsers of the schema compiler
(parser/literal.rs is not under src/).  Integer literals must fit the
declared width and signedness; floats take decimal/exponent syntax;
strings are quoted with escape sequences; array literals are
bracketed comma-separated element lists. -/

/-- Integer bounds of each basic type, `none` for non-integer ones.
Modelled from the spec: the width/signedness table of the literal checks. -/
def intRange : BasicType → Option (Int × Int)
  | .bool => none
  | .byte => some (0, 255)
  | .char => some (0, 255)
  | .float32 => none
  | .float64 => none
  | .i8 => some (-128, 127)
  | .i16 => some (-32768, 32767)
  | .i32 => some (-2147483648, 2147483647)
  | .i64 => some (-9223372036854775808, 9223372036854775807)
  | .u8 => some (0, 255)
  | .u16 => some (0, 65535)
  | .u32 => some (0, 4294967295)
  | .u64 => some (0, 18446744073709551615)

/-- Modelled from the spec: a decimal integer literal (optional minus sign),
accepted only when its value lies within the inclusive range. -/
def int_literal (mn mx : Int) (l : List Char) : Option (List Char × List Char) :=
  match l with
  | '-' :: l' =>
    match digits1 l' with
    | none => none
    | some (rest, ds) =>
      let v : Int := -(natOfDigits ds : Nat)
      if mn ≤ v ∧ v ≤ mx then some (rest, '-' :: ds) else none
  | _ =>
    match digits1 l with
    | none => none
    | some (rest, ds) =>
      let v : Int := (natOfDigits ds : Nat)
      if mn ≤ v ∧ v ≤ mx then some (rest, ds) else none

/-- Modelled from the spec: `true`/`false`, case-insensitive. -/
def bool_literal (l : List Char) : Option (List Char × List Char) :=
  let low := l.map toLo
  if "true".toList.isPrefixOf low then some (l.drop 4, "true".toList)
  else if "false".toList.isPrefixOf low then some (l.drop 5, "false".toList)
  else none

/-- Modelled from the spec: a decimal float literal with an optional fractional
part and an optional exponent; returns the consumed text. -/
def float_literal (l : List Char) : Option (List Char × List Char) :=
  let body := fun (l' : List Char) =>
    match digits1 l' with
    | none => none
    | some (r1, _) =>
      let r2 :=
        match r1 with
        | '.' :: r1' =>
          match digits1 r1' with
          | some (rf, _) => rf
          | none => r1
        | _ => r1
      let r3 :=
        match r2 with
        | 'e' :: r2' | 'E' :: r2' =>
          let r2'' := match r2' with
            | '-' :: t => t
            | '+' :: t => t
            | t => t
          match digits1 r2'' with
          | some (re, _) => re
          | none => r2
        | _ => r2
      some r3
  let start := match l with
    | '-' :: t => t
    | t => t
  match body start with
  | none => none
  | some rest => some (rest, l.take (l.length - rest.length))

/-- Modelled from the spec: dispatch a basic-type literal parser
(the source's get_basic_type_literal_... factory). -/
def get_basic_type_literal (t : BasicType) : List Char → Option (List Char × List Char) :=
  match t with
  | .bool => bool_literal
  | .float32 => float_literal
  | .float64 => float_literal
  | _ =>
    match intRange t with
    | some (mn, mx) => int_literal mn mx
    | none => fun _ => none

/-- Scan the body of a quoted string until the closing quote `q`,
decoding backslash escapes. -/
def stringBody (q : Char) : List Char → Option (List Char × List Char)
  | [] => none
  | '\\' :: c :: rest =>
    match stringBody q rest with
    | some (r, s) => some (r, c :: s)
    | none => none
  | c :: rest =>
    if c == q then some (rest, [])
    else
      match stringBody q rest with
      | some (r, s) => some (r, c :: s)
      | none => none

/-- Modelled from the spec: a single- or double-quoted string literal with
escape sequences, with an optional capacity bound on the decoded length. -/
def string_literal (bound : Option Nat) (l : List Char) : Option (List Char × List Char) :=
  let quoted :=
    match l with
    | '\'' :: rest => stringBody '\'' rest
    | '"' :: rest => stringBody '"' rest
    | _ => none
  match quoted with
  | none => none
  | some (r, s) =>
    match bound with
    | none => some (r, s)
    | some n => if s.length ≤ n then some (r, s) else none

/-- Modelled from the spec: dispatch a string literal parser keyed on the
declared string type (the source's get_string_literal_... factory). -/
def get_string_literal (t : GenericString) : List Char → Option (List Char × List Char) :=
  match t with
  | .string => string_literal none
  | .wstring => string_literal none
  | .boundedString n => string_literal (some n)
  | .boundedWString n => string_literal (some n)

/-- Elements after the first inside a bracketed list: `, elem` repeated,
then the closing bracket.  `fuel` bounds the recursion by the input length. -/
def seqElemsLoop (elem : List Char → Option (List Char × List Char)) :
    Nat → List Char → Option (List Char × List (List Char))
  | fuel, l =>
    match chrTok ']' (space0 l) with
    | some rest => some (rest, [])
    | none =>
      match fuel with
      | 0 => none
      | fuel + 1 =>
        match chrTok ',' (space0 l) with
        | none => none
        | some r1 =>
          match elem (space0 r1) with
          | none => none
          | some (r2, v) =>
            match seqElemsLoop elem fuel r2 with
            | none => none
            | some (r3, vs) => some (r3, v :: vs)

/-- Modelled from the spec: a bracketed array literal `[v1, v2, ...]` built
from a single-element literal parser; returns the ordered element strings. -/
def sequence_literal (elem : List Char → Option (List Char × List Char))
    (l : List Char) : Option (List Char × List (List Char)) :=
  match chrTok '[' l with
  | none => none
  | some r0 =>
    match chrTok ']' (space0 r0) with
    | some rest => some (rest, [])
    | none =>
      match elem (space0 r0) with
      | none => none
      | some (r1, v) =>
        match seqElemsLoop elem r1.length r1 with
        | none => none
        | some (r2, vs) => some (r2, v :: vs)

/-- Modelled from the spec: array literal of basic-type elements
(the source's basic_type_sequence). -/
def basic_type_sequence (t : BasicType) (l : List Char) :
    Option (List Char × List (List Char)) :=
  sequence_literal (get_basic_type_literal t) l

/-- Modelled from the spec: array literal of unbounded string elements
(the source's string_literal_sequence). -/
def string_literal_sequence (l : List Char) : Option (List Char × List (List Char)) :=
  sequence_literal (string_literal none) l

/-! ## Identifier grammar

Modelled from the spec: member and constant names are identifiers
(parser/ident.rs is not under src/); constant names are upper-case. -/

def member_name (l : List Char) : Option (List Char × List Char) :=
  takeWhile1 isIdentChar l

def isConstChar (c : Char) : Bool := isUp c || isDig c || c == '_'

def constant_name (l : List Char) : Option (List Char × List Char) :=
  takeWhile1 isConstChar l

/-! ## Type grammar

Modelled from the spec: the type-specifier grammar (parser/types.rs is not
under src/).  A bare lowercase identifier is a primitive iff it matches
the keyword set; `pkg/Ident` is a namespaced reference (`msg` namespace by
default); `<=N` after string/wstring is the string's own bound; a trailing
`[]`, `[N]` or `[<=N]` selects sequence, array or bounded sequence. -/

def basicOfKeyword (tok : List Char) : Option BasicType :=
  if tok = "bool".toList then some .bool
  else if tok = "byte".toList then some .byte
  else if tok = "char".toList then some .char
  else if tok = "float32".toList then some .float32
  else if tok = "float64".toList then some .float64
  else if tok = "int8".toList then some .i8
  else if tok = "int16".toList then some .i16
  else if tok = "int32".toList then some .i32
  else if tok = "int64".toList then some .i64
  else if tok = "uint8".toList then some .u8
  else if tok = "uint16".toList then some .u16
  else if tok = "uint32".toList then some .u32
  else if tok = "uint64".toList then some .u64
  else none

/-- Optional `<=N` capacity bound right after a string keyword. -/
def stringBound (l : List Char) : Option (List Char × Option Nat) :=
  match l with
  | '<' :: '=' :: rest =>
    match digits1 rest with
    | none => none
    | some (r, ds) => some (r, some (natOfDigits ds))
  | _ => some (l, none)

def parse_nestable_type (defaultNs : List Char) (l : List Char) :
    Option (List Char × NestableType) :=
  match member_name l with
  | none => none
  | some (r1, tok) =>
    match r1 with
    | '/' :: r2 =>
      match member_name r2 with
      | none => none
      | some (r3, tok2) => some (r3, .namespacedType ⟨tok, defaultNs, tok2⟩)
    | _ =>
      if tok = "string".toList then
        match stringBound r1 with
        | none => none
        | some (r2, none) => some (r2, .genericString .string)
        | some (r2, some n) => some (r2, .genericString (.boundedString n))
      else if tok = "wstring".toList then
        match stringBound r1 with
        | none => none
        | some (r2, none) => some (r2, .genericString .wstring)
        | some (r2, some n) => some (r2, .genericString (.boundedWString n))
      else
        match basicOfKeyword tok with
        | some bt => some (r1, .basicType bt)
        | none => some (r1, .namedType ⟨tok⟩)

/-- Array/sequence suffix after a nestable type: `[]`, `[N]` or `[<=N]`. -/
def parse_member_type (l : List Char) : Option (List Char × MemberType) :=
  match parse_nestable_type "msg".toList l with
  | none => none
  | some (r1, nt) =>
    match r1 with
    | '[' :: r2 =>
      match r2 with
      | ']' :: r3 => some (r3, .sequence ⟨nt⟩)
      | '<' :: '=' :: r4 =>
        match digits1 r4 with
        | none => none
        | some (r5, ds) =>
          match r5 with
          | ']' :: r6 => some (r6, .boundedSequence ⟨nt, natOfDigits ds⟩)
          | _ => none
      | _ =>
        match digits1 r2 with
        | none => none
        | some (r5, ds) =>
          match r5 with
          | ']' :: r6 => some (r6, .array ⟨nt, natOfDigits ds⟩)
          | _ => none
    | _ => some (r1, .nestableType nt)

/-- Primitive types legal for constants: basic types and unbounded strings. -/
def parse_primitive_type (l : List Char) : Option (List Char × PrimitiveType) :=
  match member_name l with
  | none => none
  | some (r1, tok) =>
    if tok = "string".toList then some (r1, .genericUnboundedString .string)
    else if tok = "wstring".toList then some (r1, .genericUnboundedString .wstring)
    else
      match basicOfKeyword tok with
      | some bt => some (r1, .basicType bt)
      | none => none

/-- Constant types: a primitive, or a fixed-size `[N]` array of a primitive
(sequences and bounded sequences are not legal constant types). -/
def parse_constant_type (l : List Char) : Option (List Char × ConstantType) :=
  match parse_primitive_type l with
  | none => none
  | some (r1, pt) =>
    match r1 with
    | '[' :: r2 =>
      match digits1 r2 with
      | none => none
      | some (r3, ds) =>
        match r3 with
        | ']' :: r4 => some (r4, .primitiveArray ⟨pt, natOfDigits ds⟩)
        | _ => none
    | _ => some (r1, .primitiveType pt)

/-! ## Default/constant value validation (from src:
rclrust-msg-parse/src/parser/member.rs and constant.rs) -/

/-- Pretty form of a namespaced type reference (its Display instance). -/
def NamespacedType.toText (t : NamespacedType) : List Char :=
  t.package ++ '/' :: t.ns ++ '/' :: t.name

/-- Embeds nestable_type_default of parser/member.rs: a scalar default for a
basic or string type, rejected outright for named/namespaced types. -/
def nestable_type_default (t : NestableType) (dflt : List Char) :
    Except RclMsgError (List (List Char)) :=
  match t with
  | .basicType bt =>
    match get_basic_type_literal bt dflt with
    | none => .error (.parseDefaultValueError dflt)
    | some (rest, v) => if rest.isEmpty then .ok [v] else .error .ensureViolation
  | .genericString gs =>
    match get_string_literal gs dflt with
    | none => .error (.parseDefaultValueError dflt)
    | some (rest, v) => if rest.isEmpty then .ok [v] else .error .ensureViolation
  | .namedType t => .error (.invalidDefaultError t.name)
  | .namespacedType t => .error (.invalidDefaultError t.toText)

/-- Embeds array_type_default of parser/member.rs: an array-literal default
whose elements are validated by the element type's literal parser. -/
def array_type_default (value_type : NestableType) (dflt : List Char) :
    Except RclMsgError (List (List Char)) :=
  match value_type with
  | .basicType bt =>
    match basic_type_sequence bt dflt with
    | none => .error (.parseDefaultValueError dflt)
    | some (rest, vs) => if rest.isEmpty then .ok vs else .error .ensureViolation
  | .namedType t => .error (.invalidDefaultError t.name)
  | .namespacedType t => .error (.invalidDefaultError t.toText)
  | .genericString _ =>
    match string_literal_sequence dflt with
    | none => .error (.parseDefaultValueError dflt)
    | some (rest, vs) => if rest.isEmpty then .ok vs else .error .ensureViolation

/-- Embeds validate_default of parser/member.rs: arity check of a member
default against its declared type. -/
def validate_default (type : MemberType) (dflt : List Char) :
    Except RclMsgError (List (List Char)) :=
  match type with
  | .nestableType t => nestable_type_default t dflt
  | .array t =>
    match array_type_default t.value_type dflt with
    | .error e => .error e
    | .ok vs => if vs.length = t.size then .ok vs else .error .ensureViolation
  | .sequence t => array_type_default t.value_type dflt
  | .boundedSequence t =>
    match array_type_default t.value_type dflt with
    | .error e => .error e
    | .ok vs => if vs.length ≤ t.max_size then .ok vs else .error .ensureViolation

/-- Embeds validate_value of parser/constant.rs: validation of a constant's
mandatory value against its (restricted) constant type. -/
def validate_value (type : ConstantType) (value : List Char) :
    Except RclMsgError (List (List Char)) :=
  match type with
  | .primitiveType (.basicType bt) =>
    match get_basic_type_literal bt value with
    | none => .error (.parseConstantValueError value)
    | some (rest, v) => if rest.isEmpty then .ok [v] else .error .ensureViolation
  | .primitiveType (.genericUnboundedString s) =>
    match get_string_literal s.toGenericString value with
    | none => .error (.parseDefaultValueError value)
    | some (rest, v) => if rest.isEmpty then .ok [v] else .error .ensureViolation
  | .primitiveArray t =>
    match t.value_type with
    | .basicType bt =>
      match basic_type_sequence bt value with
      | none => .error (.parseDefaultValueError value)
      | some (rest, vs) =>
        if rest.isEmpty then
          if vs.length = t.size then .ok vs else .error .ensureViolation
        else .error .ensureViolation
    | .genericUnboundedString _ =>
      match string_literal_sequence value with
      | none => .error (.parseDefaultValueError value)
      | some (rest, vs) => if rest.isEmpty then .ok vs else .error .ensureViolation

/-! ## Declaration-line grammar (from src:
rclrust-msg-parse/src/parser/member.rs and constant.rs) -/

/-- Consume further `space1`-separated non-whitespace items, stopping (without
consuming the separator) when no further item follows; mirrors nom's
separated_list1 backtracking.  `fuel` bounds recursion by input length. -/
def sepItemsLoop : Nat → List Char → List Char
  | 0, l => l
  | fuel + 1, l =>
    match space1 l with
    | none => l
    | some (r1, _) =>
      match takeWhile1 (fun c => !isSpaceTab c) r1 with
      | none => l
      | some (r2, _) => sepItemsLoop fuel r2

/-- The raw value/default region of a declaration line: nom's
recognize(separated_list1(space1, is_not(" \t"))). -/
def valueRegion (l : List Char) : Option (List Char × List Char) :=
  match takeWhile1 (fun c => !isSpaceTab c) l with
  | none => none
  | some (r1, _) =>
    let rest := sepItemsLoop r1.length r1
    some (rest, l.take (l.length - rest.length))

/-- The nom tuple of member_def: type, spaces, name, optional default
region, trailing spaces, end of input. -/
def memberLineGrammar (line : List Char) :
    Option (MemberType × List Char × Option (List Char)) :=
  match parse_member_type line with
  | none => none
  | some (r1, type) =>
    match space1 r1 with
    | none => none
    | some (r2, _) =>
      match member_name r2 with
      | none => none
      | some (r3, name) =>
        let (r4, dflt) :=
          match space1 r3 with
          | none => (r3, none)
          | some (ra, _) =>
            match valueRegion ra with
            | none => (r3, none)
            | some (rb, reg) => (rb, some reg)
        let r5 := space0 r4
        if r5.isEmpty then some (type, name, dflt) else none

/-- Embeds member_def of parser/member.rs: one member declaration line. -/
def member_def (line : List Char) : Except RclMsgError Member :=
  match memberLineGrammar line with
  | none => .error (.parseMemberError line)
  | some (type, name, none) => .ok ⟨name, type, none⟩
  | some (type, name, some reg) =>
    match validate_default type reg with
    | .error e => .error e
    | .ok vs => .ok ⟨name, type, some vs⟩

/-- The nom tuple of constant_def: type, spaces, name, `=`, mandatory value
region, trailing spaces, end of input. -/
def constantLineGrammar (line : List Char) :
    Option (ConstantType × List Char × List Char) :=
  match parse_constant_type line with
  | none => none
  | some (r1, type) =>
    match space1 r1 with
    | none => none
    | some (r2, _) =>
      match constant_name r2 with
      | none => none
      | some (r3, name) =>
        match chrTok '=' (space0 r3) with
        | none => none
        | some r4 =>
          match valueRegion (space0 r4) with
          | none => none
          | some (r5, reg) =>
            if (space0 r5).isEmpty then some (type, name, reg) else none

/-- Embeds constant_def of parser/constant.rs: one constant declaration line. -/
def constant_def (line : List Char) : Except RclMsgError Constant :=
  match constantLineGrammar line with
  | none => .error (.parseConstantError line)
  | some (type, name, reg) =>
    match validate_value type reg with
    | .error e => .error e
    | .ok vs => .ok ⟨name, type, vs⟩

/-! ## Newline normalization (from src:
rclrust-msg-parse/src/parser/utils.rs) -/

/-- One left-to-right pass converting each CRLF pair to a bare LF; embeds
both newline_converter's dos2unix and Rust's replace of "\r\n" by "\n"
(both scan once, continuing after each replacement). -/
def crlf2lf : List Char → List Char
  | [] => []
  | '\r' :: '\n' :: rest => '\n' :: crlf2lf rest
  | c :: rest => c :: crlf2lf rest

/-- Embeds fix_newlines of parser/utils.rs: dos2unix, then append a final
newline when the text does not already end with one. -/
def fix_newlines (text : List Char) : List Char :=
  if (crlf2lf text).getLast? = some '\n' then crlf2lf text
  else crlf2lf text ++ ['\n']

/-! ## Section splitting and message assembly -/

/-- Embeds Rust str::split_once over character lists: split around the first
occurrence of `sep`, or `none` when `sep` does not occur. -/
def splitOnceList (sep : List Char) : List Char → Option (List Char × List Char)
  | [] => if sep.isEmpty then some ([], []) else none
  | c :: l =>
    if sep.isPrefixOf (c :: l) then some ([], (c :: l).drop sep.length)
    else
      match splitOnceList sep l with
      | some (x, y) => some (c :: x, y)
      | none => none

/-- Whether `sep` occurs as a contiguous substring. -/
def containsSub (sep : List Char) : List Char → Bool
  | [] => sep.isEmpty
  | c :: l => sep.isPrefixOf (c :: l) || containsSub sep l

/-- Whether `sep` occurs starting at one of the first `n` positions. -/
def occursBefore (sep : List Char) : List Char → Nat → Bool
  | _, 0 => false
  | [], _ + 1 => sep.isEmpty
  | c :: l, n + 1 => sep.isPrefixOf (c :: l) || occursBefore sep l n

/-- Split of a text into its newline-terminated lines (the segments between
`'\n'` characters, with a final possibly-empty segment). -/
def splitNL : List Char → List (List Char)
  | [] => [[]]
  | c :: rest =>
    if c = '\n' then [] :: splitNL rest
    else
      match splitNL rest with
      | s :: ss => (c :: s) :: ss
      | [] => [[c]]

/-- A line ignored by the message assembler: blank, or a `#` comment. -/
def isSkipLine (l : List Char) : Bool :=
  let t := space0 l
  t.isEmpty || t.headD ' ' == '#'

/-- A line is classified as a constant declaration when it contains `=`. -/
def isConstantLine (l : List Char) : Bool := l.contains '='

/-- Parse the declaration lines of a message body in source order, returning
the ordered members and constants. -/
def parseLines : List (List Char) → Except RclMsgError (List Member × List Constant)
  | [] => .ok ([], [])
  | l :: rest =>
    if isSkipLine l then parseLines rest
    else if isConstantLine l then
      match constant_def l with
      | .error e => .error e
      | .ok c =>
        match parseLines rest with
        | .error e => .error e
        | .ok (ms, cs) => .ok (ms, c :: cs)
    else
      match member_def l with
      | .error e => .error e
      | .ok m =>
        match parseLines rest with
        | .error e => .error e
        | .ok (ms, cs) => .ok (m :: ms, cs)

/-- Modelled from the spec: parse_message_string (parser/message.rs is not
under src/).  The body is newline-normalized, split into lines, blank and
comment lines are skipped, and every remaining line is one constant or
member declaration, kept in source order. -/
def parse_message_string (pkg_name msg_name body : List Char) :
    Except RclMsgError Message :=
  match parseLines (splitNL (fix_newlines body)) with
  | .error e => .error e
  | .ok (ms, cs) => .ok ⟨pkg_name, msg_name, ms, cs⟩

/-! ## Service parser (from src: rclrust-msg-parse/src/parser/service.rs) -/

def srvSep : List Char := "---\n".toList

def serviceSepErrText (pkg_name srv_name : List Char) : List Char :=
  "Expect one '---' seperator in ".toList ++ pkg_name ++ '/' :: srv_name ++
    " service definition".toList

/-- Embeds parse_service_string: split the body at the first "---\n" and
parse the two blocks as the request and response messages. -/
def parse_service_string (pkg_name srv_name body : List Char) :
    Except RclMsgError Service :=
  match splitOnceList srvSep body with
  | none => .error (.invalidServiceSpecification (serviceSepErrText pkg_name srv_name))
  | some (block1, block2) =>
    match parse_message_string pkg_name (srv_name ++ "_Request".toList) block1 with
    | .error e => .error e
    | .ok request =>
      match parse_message_string pkg_name (srv_name ++ "_Response".toList) block2 with
      | .error e => .error e
      | .ok response => .ok ⟨pkg_name, srv_name, request, response⟩

/-- Embeds parse_service_file: the file contents only get CRLF conversion
(Rust replace of "\r\n" by "\n"); no trailing newline is appended. -/
def parse_service_file (pkg_name srv_name contents : List Char) :
    Except RclMsgError Service :=
  parse_service_string pkg_name srv_name (crlf2lf contents)

/-! ## Action parser (from src: rclrust-msg-gen/src/parser/action.rs) -/

def actionSepErrText : List Char :=
  "Number of '---' separators nonconformant with action definition".toList

/-- Embeds parse_action_string: normalize via fix_newlines, then split twice
at "---\n" into goal, result and feedback blocks. -/
def parse_action_string (pkg_name action_name body : List Char) :
    Except RclMsgError Action :=
  let body := fix_newlines body
  match splitOnceList srvSep body with
  | none => .error (.invalidActionSpecification actionSepErrText)
  | some (block1, tl) =>
    match splitOnceList srvSep tl with
    | none => .error (.invalidActionSpecification actionSepErrText)
    | some (block2, block3) =>
      match parse_message_string pkg_name (action_name ++ "_Goal".toList) block1 with
      | .error e => .error e
      | .ok goal =>
        match parse_message_string pkg_name (action_name ++ "_Result".toList) block2 with
        | .error e => .error e
        | .ok result =>
          match parse_message_string pkg_name (action_name ++ "_Feedback".toList) block3 with
          | .error e => .error e
          | .ok feedback => .ok ⟨pkg_name, action_name, goal, result, feedback⟩

/-! ## Derived action artifacts (from src:
rclrust-msg-parse/src/types/action.rs) -/

/-- Embeds goal_id_type of types/action.rs: the protocol-mandated goal-id
member of type unique_identifier_msgs/msg/UUID. -/
def goal_id_type : Member :=
  { name := "goal_id".toList
    type := .nestableType (.namespacedType
      ⟨"unique_identifier_msgs".toList, "msg".toList, "UUID".toList⟩)
    default := none }

/-- Embeds Action::send_goal_srv: the derived SendGoal service. -/
def Action.send_goal_srv (a : Action) : Service :=
  let common := a.name ++ "_SendGoal".toList
  let request : Message :=
    { package := a.package
      name := common ++ "_Request".toList
      members := [goal_id_type,
        { name := "goal".toList
          type := .nestableType (.namespacedType
            ⟨a.package, "action".toList, a.name ++ "_Goal".toList⟩)
          default := none }]
      constants := [] }
  let response : Message :=
    { package := a.package
      name := common ++ "_Response".toList
      members := [
        { name := "accepted".toList
          type := .nestableType (.basicType .bool)
          default := none },
        { name := "stamp".toList
          type := .nestableType (.namespacedType
            ⟨"builtin_interfaces".toList, "msg".toList, "Time".toList⟩)
          default := none }]
      constants := [] }
  ⟨a.package, common, request, response⟩

/-- Embeds Action::get_result_srv: the derived GetResult service. -/
def Action.get_result_srv (a : Action) : Service :=
  let common := a.name ++ "_GetResult".toList
  let request : Message :=
    { package := a.package
      name := common ++ "_Request".toList
      members := [goal_id_type]
      constants := [] }
  let response : Message :=
    { package := a.package
      name := common ++ "_Response".toList
      members := [
        { name := "status".toList
          type := .nestableType (.basicType .i8)
          default := none },
        { name := "result".toList
          type := .nestableType (.namespacedType
            ⟨a.package, "action".toList, a.name ++ "_Result".toList⟩)
          default := none }]
      constants := [] }
  ⟨a.package, common, request, response⟩

/-- Embeds Action::feedback_message_msg: the derived FeedbackMessage. -/
def Action.feedback_message_msg (a : Action) : Message :=
  { package := a.package
    name := a.name ++ "_FeedbackMessage".toList
    members := [goal_id_type,
      { name := "feedback".toList
        type := .nestableType (.namespacedType
          ⟨a.package, "action".toList, a.name ++ "_Feedback".toList⟩)
        default := none }]
    constants := [] }

/-! ## Name transliteration (from src:
rclrust-msg-parse/src/parser/package.rs, camel2snake)

The function delegates to the convert_case crate with the boundary set
LowerUpper, DigitUpper, Acronym and target case Snake; the crate's
boundary-splitting and lower-casing are modelled here over ASCII. -/

/-- Boundary test of convert_case between two adjacent characters, with the
lookahead needed by the Acronym boundary (upper, upper, lower splits
between the two uppers). -/
def caseBoundary (c1 c2 : Char) (rest : List Char) : Bool :=
  (isLo c1 && isUp c2) || (isDig c1 && isUp c2) ||
    (isUp c1 && isUp c2 &&
      (match rest with
       | c3 :: _ => isLo c3
       | [] => false))

/-- Word splitting at case boundaries; `cur` holds the reversed current word. -/
def splitWordsGo (cur : List Char) : List Char → List (List Char)
  | [] => [cur.reverse]
  | [c] => [(c :: cur).reverse]
  | c1 :: c2 :: rest =>
    if caseBoundary c1 c2 rest then
      (c1 :: cur).reverse :: splitWordsGo [] (c2 :: rest)
    else
      splitWordsGo (c1 :: cur) (c2 :: rest)

def splitWords (l : List Char) : List (List Char) := splitWordsGo [] l

/-- Join words with a single underscore (the Snake case pattern). -/
def joinUnderscore : List (List Char) → List Char
  | [] => []
  | [w] => w
  | w :: ws => w ++ '_' :: joinUnderscore ws

/-- Embeds camel2snake of parser/package.rs (through the convert_case
crate): split at case boundaries, lower-case, join with underscores. -/
def camel2snake (input : List Char) : List Char :=
  joinUnderscore ((splitWords input).map (fun w => w.map toLo))

/-! ## Package directory loading (from src:
rclrust-msg-gen/src/parser/package.rs, load_package_dir) -/

/-- The assembled package of rclrust-msg-gen.  Modelled from the spec: the
msg-gen types module is not under src/; the fields mirror the twin Package
type of rclrust-msg-parse/src/types/package.rs. -/
structure Package where
  name : List Char
  messages : List Message
  services : List Service
  actions : List Action
deriving DecidableEq

/-- Modelled from the spec: Package::new of the msg-gen types module. -/
def Package.new (name : List Char) : Package := ⟨name, [], [], []⟩

/-- Modelled from the spec: Package::is_empty, as in the twin type under
src/ (no messages, no services and no actions). -/
def Package.is_empty (p : Package) : Bool :=
  p.messages.isEmpty && p.services.isEmpty && p.actions.isEmpty

/-- Abstraction of a package directory on disk: the package (directory)
name and, per dialect subdirectory, the (file stem, file contents) pairs
in traversal order. -/
structure PackageDirData where
  name : List Char
  msgFiles : List (List Char × List Char)
  srvFiles : List (List Char × List Char)
  actionFiles : List (List Char × List Char)

/-- Parse every file of one dialect subdirectory, failing on the first
parse error and keeping traversal order. -/
def parseAllFiles {α : Type} (f : List Char → List Char → Except RclMsgError α) :
    List (List Char × List Char) → Except RclMsgError (List α)
  | [] => .ok []
  | (stem, contents) :: rest =>
    match f stem contents with
    | .error e => .error e
    | .ok a =>
      match parseAllFiles f rest with
      | .error e => .error e
      | .ok as => .ok (a :: as)

/-- Modelled from the spec: parse_message_file reads a file and parses its
contents as a message named after the file stem. -/
def parse_message_file (pkg_name stem contents : List Char) : Except RclMsgError Message :=
  parse_message_string pkg_name stem contents

/-- Embeds load_package_dir of rclrust-msg-gen/src/parser/package.rs: parse
every .msg/.srv/.action file under the directory into the package, then
`ensure!(package.is_empty(), ...)` before returning it. -/
def load_package_dir (d : PackageDirData) : Except RclMsgError Package :=
  match parseAllFiles (parse_message_file d.name) d.msgFiles with
  | .error e => .error e
  | .ok msgs =>
    match parseAllFiles (parse_service_file d.name) d.srvFiles with
    | .error e => .error e
    | .ok srvs =>
      match parseAllFiles (parse_action_string d.name) d.actionFiles with
      | .error e => .error e
      | .ok acts =>
        let package : Package := ⟨d.name, msgs, srvs, acts⟩
        if package.is_empty then .ok package else .error .ensureViolation

/-! ## Auxiliary predicates used by the statements -/

/-- The nestable (element) type underlying a member type. -/
def elemNestable : MemberType → NestableType
  | .nestableType t => t
  | .array t => t.value_type
  | .sequence t => t.value_type
  | .boundedSequence t => t.value_type

/-- Whether a nestable type is an unresolved named or namespaced reference. -/
def isNamedRef : NestableType → Bool
  | .namedType _ => true
  | .namespacedType _ => true
  | _ => false

/-- The integer-valued basic types of fixed width and signedness. -/
def intTypes : List BasicType :=
  [.i8, .i16, .i32, .i64, .u8, .u16, .u32, .u64]

/-- Whether a literal string is accepted as a scalar member default of
basic type `t`. -/
def acceptsLit (t : BasicType) (s : List Char) : Bool :=
  isOkB (nestable_type_default (.basicType t) s)

/-- Boundary behaviour of type `t`'s integer literal validation: the
extreme legal values parse, one past either bound fails; stated over the
decimal representations of the bounds. -/
def boundaryOk (t : BasicType) : Bool :=
  match intRange t with
  | none => false
  | some (mn, mx) =>
    acceptsLit t (Int.repr mx).toList && acceptsLit t (Int.repr mn).toList &&
      !acceptsLit t (Int.repr (mx + 1)).toList &&
      !acceptsLit t (Int.repr (mn - 1)).toList

/-! ## Theorems -/

/-- C2: The derived SendGoal service of every Action is named
`{action}_SendGoal`; its request has exactly the two members `goal_id`
(of namespaced type unique_identifier_msgs/msg/UUID) and `goal`
(referencing `{package}/action/{action}_Goal`), in that order, and its
response has exactly the two members `accepted : bool` and
`stamp : builtin_interfaces/msg/Time`.  The derivation is a total Lean
function of the Action value, hence has no failure mode. -/
theorem c2_send_goal_derivation (a : Action) :
    a.send_goal_srv.name = a.name ++ "_SendGoal".toList ∧
    a.send_goal_srv.request.members =
      [goal_id_type,
       ⟨"goal".toList,
        .nestableType (.namespacedType
          ⟨a.package, "action".toList, a.name ++ "_Goal".toList⟩), none⟩] ∧
    goal_id_type =
      ⟨"goal_id".toList,
       .nestableType (.namespacedType
         ⟨"unique_identifier_msgs".toList, "msg".toList, "UUID".toList⟩), none⟩ ∧
    a.send_goal_srv.response.members =
      [⟨"accepted".toList, .nestableType (.basicType .bool), none⟩,
       ⟨"stamp".toList,
        .nestableType (.namespacedType
          ⟨"builtin_interfaces".toList, "msg".toList, "Time".toList⟩), none⟩] :=
  ⟨rfl, rfl, rfl, rfl⟩

/-! ### Lemmas for the name transliteration (C9) -/

theorem mem_upLowPairs_snd_not_up : ∀ p ∈ upLowPairs, isUp p.2 = false := by
  decide

theorem isUp_toLo (c : Char) : isUp (toLo c) = false := by
  cases h : upLowPairs.find? (fun p => p.1 == c) with
  | none =>
    have ht : toLo c = c := by unfold toLo; rw [h]
    rw [ht]; unfold isUp; rw [h]; rfl
  | some p =>
    have ht : toLo c = p.2 := by unfold toLo; rw [h]
    rw [ht]; exact mem_upLowPairs_snd_not_up p (List.mem_of_find?_eq_some h)

theorem toLo_of_not_up {c : Char} (h : isUp c = false) : toLo c = c := by
  cases hf : upLowPairs.find? (fun p => p.1 == c) with
  | none => unfold toLo; rw [hf]
  | some p => exfalso; unfold isUp at h; rw [hf] at h; simp at h

theorem caseBoundary_of_not_up {c1 c2 : Char} {rest : List Char}
    (h : isUp c2 = false) : caseBoundary c1 c2 rest = false := by
  simp [caseBoundary, h]

theorem splitWordsGo_all_low :
    ∀ (l cur : List Char), (∀ c ∈ l, isUp c = false) →
      splitWordsGo cur l = [cur.reverse ++ l] := by
  intro l
  induction l with
  | nil => intro cur _; simp [splitWordsGo]
  | cons c1 t ih =>
    intro cur h
    cases t with
    | nil => simp [splitWordsGo]
    | cons c2 rest =>
      have h2 : isUp c2 = false := h c2 (by simp)
      simp only [splitWordsGo, caseBoundary_of_not_up h2, if_neg Bool.false_ne_true]
      rw [ih (c1 :: cur) (fun c hc => h c (List.mem_cons_of_mem _ hc))]
      simp

theorem mem_joinUnderscore {c : Char} :
    ∀ {ws : List (List Char)}, c ∈ joinUnderscore ws →
      c = '_' ∨ ∃ w ∈ ws, c ∈ w := by
  intro ws
  induction ws with
  | nil => intro h; simp [joinUnderscore] at h
  | cons w ws ih =>
    intro h
    cases ws with
    | nil =>
      simp [joinUnderscore] at h
      exact Or.inr ⟨w, by simp, h⟩
    | cons w2 ws2 =>
      simp only [joinUnderscore] at h
      rcases List.mem_append.mp h with hw | hrest
      · exact Or.inr ⟨w, by simp, hw⟩
      · rcases List.mem_cons.mp hrest with hu | hjoin
        · exact Or.inl hu
        · rcases ih hjoin with hu | ⟨w', hw', hc⟩
          · exact Or.inl hu
          · exact Or.inr ⟨w', List.mem_cons_of_mem _ hw', hc⟩

theorem camel2snake_chars (s : List Char) :
    ∀ c ∈ camel2snake s, isUp c = false := by
  intro c hc
  unfold camel2snake at hc
  rcases mem_joinUnderscore hc with hu | ⟨w, hw, hcw⟩
  · subst hu; decide
  · rcases List.mem_map.mp hw with ⟨w', _, rfl⟩
    rcases List.mem_map.mp hcw with ⟨x, _, rfl⟩
    exact isUp_toLo x

theorem map_toLo_fixed : ∀ {l : List Char}, (∀ c ∈ l, isUp c = false) →
    l.map toLo = l := by
  intro l
  induction l with
  | nil => intro _; rfl
  | cons c t ih =>
    intro h
    simp only [List.map_cons]
    rw [toLo_of_not_up (h c (by simp)), ih (fun x hx => h x (List.mem_cons_of_mem _ hx))]

/-- C9: The PascalCase-to-snake-case transliteration maps "TestHoge" to
"test_hoge", is deterministic (equal inputs give equal outputs), and is
idempotent: applying it to its own output returns that output unchanged. -/
theorem c9_camel2snake_idempotent :
    camel2snake "TestHoge".toList = "test_hoge".toList ∧
    (∀ s t : List Char, s = t → camel2snake s = camel2snake t) ∧
    (∀ s : List Char, camel2snake (camel2snake s) = camel2snake s) := by
  refine ⟨by decide, fun s t h => by rw [h], fun s => ?_⟩
  have hchars := camel2snake_chars s
  have h1 : splitWords (camel2snake s) = [camel2snake s] := by
    unfold splitWords
    rw [splitWordsGo_all_low _ [] hchars]
    simp
  calc camel2snake (camel2snake s)
      = joinUnderscore ((splitWords (camel2snake s)).map (fun w => w.map toLo)) := rfl
    _ = joinUnderscore [(camel2snake s).map toLo] := by rw [h1]; rfl
    _ = (camel2snake s).map toLo := rfl
    _ = camel2snake s := map_toLo_fixed hchars

/-- Witness for C9 at the concrete identifier "TestHoge". -/
theorem c9_witness :
    camel2snake "TestHoge".toList = camel2snake "TestHoge".toList ∧
    camel2snake (camel2snake "TestHoge".toList) = camel2snake "TestHoge".toList :=
  ⟨c9_camel2snake_idempotent.2.1 _ _ rfl, c9_camel2snake_idempotent.2.2 _⟩

/-- C3: For every integer basic type, the decimal literal of its maximum
and minimum legal value is accepted as a default/constant value, and a
literal one past either bound is rejected; in particular `uint8 AAA=255`
succeeds while `uint8 AAA=256` and `uint8 AAA=-1` fail (likewise for the
uint8 member defaults 255, 256 and -1). -/
theorem c3_integer_bounds :
    intTypes.all boundaryOk = true ∧
    constant_def "uint8 AAA=255".toList =
      .ok ⟨"AAA".toList, .primitiveType (.basicType .u8), ["255".toList]⟩ ∧
    isErrB ( constant_def "uint8 AAA=256".toList) = true ∧
    isErrB ( constant_def "uint8 AAA=-1".toList) = true ∧
    member_def "uint8 aaa 255".toList =
      .ok ⟨"aaa".toList, .nestableType (.basicType .u8), some ["255".toList]⟩ ∧
    isErrB ( member_def "uint8 aaa 256".toList) = true ∧
    isErrB ( member_def "uint8 aaa -1".toList) = true := by
  refine ⟨by decide, by decide, by decide, by decide, by decide, by decide, by decide⟩

/-- C4: Once the element literals of an array-typed default parse to the
ordered list `v`, a fixed-size Array default succeeds exactly when
`v.length` equals the declared size, a BoundedSequence default succeeds
exactly when `v.length` is at most the capacity, and an unbounded Sequence
default succeeds with `v` unconditionally. -/
theorem c4_sequence_arity (t : NestableType) (d : List Char) (v : List (List Char))
    (h : array_type_default t d = .ok v) :
    (∀ n, validate_default (.array ⟨t, n⟩) d =
        if v.length = n then .ok v else .error .ensureViolation) ∧
    (∀ N, validate_default (.boundedSequence ⟨t, N⟩) d =
        if v.length ≤ N then .ok v else .error .ensureViolation) ∧
    validate_default (.sequence ⟨t⟩) d = .ok v := by
  refine ⟨fun n => ?_, fun N => ?_, ?_⟩ <;> simp [validate_default, h]

/-- Witness for C4: an int32 bounded sequence of capacity 3 succeeds with
3 elements and fails with 4. -/
theorem c4_witness :
    validate_default (.boundedSequence ⟨.basicType .i32, 3⟩) "[1, 2, 3]".toList =
      .ok ["1".toList, "2".toList, "3".toList] ∧
    validate_default (.boundedSequence ⟨.basicType .i32, 3⟩) "[1, 2, 3, 4]".toList =
      .error .ensureViolation := by
  constructor
  · have h := (c4_sequence_arity (.basicType .i32) "[1, 2, 3]".toList
      ["1".toList, "2".toList, "3".toList] (by decide)).2.1 3
    simpa using h
  · have h := (c4_sequence_arity (.basicType .i32) "[1, 2, 3, 4]".toList
      ["1".toList, "2".toList, "3".toList, "4".toList] (by decide)).2.1 3
    simpa using h

theorem validate_default_named {ty : MemberType} {d : List Char}
    (h : isNamedRef (elemNestable ty) = true) :
    isErrB (validate_default ty d) = true := by
  cases ty with
  | nestableType t =>
    cases t <;>
      simp_all [isNamedRef, elemNestable, validate_default, nestable_type_default, isErrB]
  | array t =>
    obtain ⟨vt, n⟩ := t
    cases vt <;>
      simp_all [isNamedRef, elemNestable, validate_default, array_type_default, isErrB]
  | sequence t =>
    obtain ⟨vt⟩ := t
    cases vt <;>
      simp_all [isNamedRef, elemNestable, validate_default, array_type_default, isErrB]
  | boundedSequence t =>
    obtain ⟨vt, n⟩ := t
    cases vt <;>
      simp_all [isNamedRef, elemNestable, validate_default, array_type_default, isErrB]

/-- C5: A successfully parsed member whose (element) type is a named or
namespaced reference has no default value; validating a supplied default
against such a type always fails, so the whole line fails. -/
theorem c5_no_default_for_named :
    (∀ (line : List Char) (m : Member), member_def line = .ok m →
       isNamedRef (elemNestable m.type) = true → m.default = none) ∧
    (∀ (ty : MemberType) (d : List Char), isNamedRef (elemNestable ty) = true →
       isErrB (validate_default ty d) = true) := by
  constructor
  · intro line m hok hnamed
    unfold member_def at hok
    cases hg : memberLineGrammar line with
    | none => rw [hg] at hok; simp at hok
    | some x =>
      obtain ⟨ty, name, dflt⟩ := x
      rw [hg] at hok
      cases dflt with
      | none =>
        dsimp only at hok
        simp only [Except.ok.injEq] at hok
        rw [← hok]
      | some reg =>
        dsimp only at hok
        cases hv : validate_default ty reg with
        | error e => rw [hv] at hok; simp at hok
        | ok vs =>
          rw [hv] at hok
          dsimp only at hok
          simp only [Except.ok.injEq] at hok
          exfalso
          have hty : m.type = ty := by rw [← hok]
          have herr := validate_default_named (d := reg) (hty ▸ hnamed)
          rw [hv] at herr
          simp [isErrB] at herr
  · exact fun ty d h => validate_default_named h

/-- Witness for C5 at the member lines "Foo aaa" (accepted, no default)
and "Foo aaa bar" (rejected default for a named type). -/
theorem c5_witness :
    (⟨"aaa".toList, .nestableType (.namedType ⟨"Foo".toList⟩), none⟩ : Member).default
      = none ∧
    isErrB (validate_default (.nestableType (.namedType ⟨"Foo".toList⟩)) "bar".toList)
      = true :=
  ⟨c5_no_default_for_named.1 "Foo aaa".toList _ (by decide) (by decide),
   c5_no_default_for_named.2 _ "bar".toList (by decide)⟩

/-! ### Consumption (suffix) lemmas for the constant-line grammar (C6) -/

theorem takeWhile1_suffix {p : Char → Bool} {l r tok : List Char}
    (h : takeWhile1 p l = some (r, tok)) : r <:+ l := by
  unfold takeWhile1 at h
  split at h
  · simp at h
  · simp only [Option.some.injEq, Prod.mk.injEq] at h
    rw [← h.1]
    exact List.drop_suffix _ _

theorem space0_suffix (l : List Char) : space0 l <:+ l :=
  List.drop_suffix _ _

theorem chrTok_mem {c : Char} {l r : List Char} (h : chrTok c l = some r) :
    c ∈ l := by
  cases l with
  | nil => simp [chrTok] at h
  | cons c' rest =>
    simp only [chrTok] at h
    split at h
    · rename_i hc
      cases beq_iff_eq.mp hc
      exact List.mem_cons_self _ _
    · simp at h

theorem parse_primitive_type_suffix {l r : List Char} {pt : PrimitiveType}
    (h : parse_primitive_type l = some (r, pt)) : r <:+ l := by
  unfold parse_primitive_type at h
  cases hm : member_name l with
  | none => rw [hm] at h; simp at h
  | some x =>
    obtain ⟨r1, tok⟩ := x
    rw [hm] at h
    dsimp only at h
    have h1 : r1 <:+ l := takeWhile1_suffix hm
    split at h
    · simp only [Option.some.injEq, Prod.mk.injEq] at h; rw [← h.1]; exact h1
    · split at h
      · simp only [Option.some.injEq, Prod.mk.injEq] at h; rw [← h.1]; exact h1
      · cases hb : basicOfKeyword tok with
        | none => rw [hb] at h; simp at h
        | some bt =>
          rw [hb] at h
          dsimp only at h
          simp only [Option.some.injEq, Prod.mk.injEq] at h
          rw [← h.1]; exact h1

theorem parse_constant_type_suffix {l r : List Char} {ct : ConstantType}
    (h : parse_constant_type l = some (r, ct)) : r <:+ l := by
  unfold parse_constant_type at h
  cases hp : parse_primitive_type l with
  | none => rw [hp] at h; simp at h
  | some x =>
    obtain ⟨r1, pt⟩ := x
    rw [hp] at h
    dsimp only at h
    have h1 : r1 <:+ l := parse_primitive_type_suffix hp
    split at h
    · rename_i r2
      cases hd : digits1 r2 with
      | none => rw [hd] at h; simp at h
      | some y =>
        obtain ⟨r3, ds⟩ := y
        rw [hd] at h
        dsimp only at h
        have h3 : r3 <:+ r2 := takeWhile1_suffix hd
        split at h
        · rename_i r4
          simp only [Option.some.injEq, Prod.mk.injEq] at h
          rw [← h.1]
          have h4 : r4 <:+ r2 := (List.suffix_cons ']' r4).trans h3
          exact (h4.trans (List.suffix_cons '[' r2)).trans h1
        · simp at h
    · simp only [Option.some.injEq, Prod.mk.injEq] at h; rw [← h.1]; exact h1

theorem constantLineGrammar_eq_mem {line : List Char}
    {x : ConstantType × List Char × List Char}
    (h : constantLineGrammar line = some x) : '=' ∈ line := by
  unfold constantLineGrammar at h
  cases hct : parse_constant_type line with
  | none => rw [hct] at h; simp at h
  | some y =>
    obtain ⟨r1, ty⟩ := y
    rw [hct] at h
    dsimp only at h
    cases hs1 : space1 r1 with
    | none => rw [hs1] at h; simp at h
    | some z =>
      obtain ⟨r2, _⟩ := z
      rw [hs1] at h
      dsimp only at h
      cases hcn : constant_name r2 with
      | none => rw [hcn] at h; simp at h
      | some w =>
        obtain ⟨r3, name⟩ := w
        rw [hcn] at h
        dsimp only at h
        cases hch : chrTok '=' (space0 r3) with
        | none => rw [hch] at h; simp at h
        | some r4 =>
          have hmem : '=' ∈ space0 r3 := chrTok_mem hch
          have hsr : space0 r3 <:+ line :=
            ((space0_suffix r3).trans (takeWhile1_suffix hcn)).trans
              ((takeWhile1_suffix hs1).trans (parse_constant_type_suffix hct))
          exact hsr.subset hmem

/-- C6: The line `int32 AAA=30` parses to a constant named AAA of type
int32 with value ["30"]; the `=` separator is mandatory (any line without
an `=` character fails with a grammar error), and so is the value (a line
ending at the bare `=` also fails). -/
theorem c6_constant_grammar :
    constant_def "int32 AAA=30".toList =
      .ok ⟨"AAA".toList, .primitiveType (.basicType .i32), ["30".toList]⟩ ∧
    (∀ line : List Char, '=' ∉ line →
       constant_def line = .error (.parseConstantError line)) ∧
    constant_def "int32 AAA".toList = .error (.parseConstantError "int32 AAA".toList) ∧
    constant_def "int32 AAA=".toList = .error (.parseConstantError "int32 AAA=".toList) := by
  refine ⟨by decide, ?_, by decide, by decide⟩
  intro line hne
  unfold constant_def
  cases hg : constantLineGrammar line with
  | none => rfl
  | some x => exact absurd (constantLineGrammar_eq_mem hg) hne

/-- Witness for C6: the equals-free line "int32 AAA" fails. -/
theorem c6_witness :
    constant_def "int32 AAA".toList = .error (.parseConstantError "int32 AAA".toList) :=
  c6_constant_grammar.2.1 "int32 AAA".toList (by decide)

/-! ### Lemmas on section splitting (C1, C8) -/

theorem isPrefixOf_append (l t : List Char) : l.isPrefixOf (l ++ t) = true := by
  induction l with
  | nil => cases t <;> rfl
  | cons c l ih => simp [List.isPrefixOf, ih]

theorem splitOnce_isSome (sep : List Char) :
    ∀ l, (splitOnceList sep l).isSome = containsSub sep l := by
  intro l
  induction l with
  | nil =>
    by_cases h : sep.isEmpty <;> simp [splitOnceList, containsSub, h]
  | cons c t ih =>
    unfold splitOnceList containsSub
    by_cases hp : sep.isPrefixOf (c :: t) = true
    · simp [hp]
    · simp only [Bool.not_eq_true] at hp
      simp only [hp, Bool.false_or, if_neg Bool.false_ne_true]
      cases hs : splitOnceList sep t with
      | none => rw [hs] at ih; simpa using ih
      | some x => rw [hs] at ih; obtain ⟨a, b⟩ := x; simpa using ih

theorem splitOnce_at {sep : List Char} (hsep : sep ≠ []) :
    ∀ A B : List Char, occursBefore sep (A ++ sep ++ B) A.length = false →
      splitOnceList sep (A ++ sep ++ B) = some (A, B) := by
  intro A
  induction A with
  | nil =>
    intro B _
    cases sep with
    | nil => exact absurd rfl hsep
    | cons s ss =>
      show splitOnceList (s :: ss) (s :: (ss ++ B)) = some ([], B)
      have hpre : (s :: ss).isPrefixOf (s :: (ss ++ B)) = true :=
        isPrefixOf_append (s :: ss) B
      have hdrop : List.drop (s :: ss).length (s :: (ss ++ B)) = B :=
        List.drop_left (s :: ss) B
      unfold splitOnceList
      rw [if_pos hpre, hdrop]
  | cons a A ih =>
    intro B hocc
    have hshape : (a :: A) ++ sep ++ B = a :: (A ++ sep ++ B) := by simp
    rw [hshape] at hocc ⊢
    have hlen : (a :: A).length = A.length + 1 := rfl
    rw [hlen] at hocc
    unfold occursBefore at hocc
    rw [Bool.or_eq_false_iff] at hocc
    unfold splitOnceList
    rw [if_neg (by rw [hocc.1]; exact Bool.false_ne_true)]
    rw [ih B hocc.2]

/-- C8 as stated is false: the body `"#---\n"` has no line consisting
solely of three dashes (its only nonempty line is `"#---"`), yet the
service parser recognizes a separator in it and parses it successfully. -/
theorem c8_counterexample :
    isOkB (parse_service_string "pkg".toList "S".toList "#---\n".toList) = true ∧
    (∀ line ∈ splitNL "#---\n".toList, line ≠ "---".toList) := by
  refine ⟨by decide, by decide⟩

/-- C8 amended: a separator is recognized in a service or action body
exactly when the four-character substring `"---\n"` occurs in it; text on
the same line before the dashes does not prevent recognition (it remains
part of the preceding block), while text after the dashes does.  The
stated equivalence: splitting succeeds iff the substring occurs. -/
theorem c8_separator_recognition :
    (∀ body : List Char,
       (splitOnceList srvSep body).isSome = containsSub srvSep body) ∧
    splitOnceList srvSep "#x---\nint32 aaa\n".toList =
      some ("#x".toList, "int32 aaa\n".toList) ∧
    containsSub srvSep "---x\n".toList = false ∧
    containsSub srvSep "---\n".toList = true := by
  refine ⟨splitOnce_isSome srvSep, by decide, by decide, by decide⟩

/-! ### Message-body errors are never the service structural error (C1) -/

theorem nestable_type_default_err {t : NestableType} {d : List Char} {e : RclMsgError}
    (h : nestable_type_default t d = .error e) : isServiceSpecError e = false := by
  unfold nestable_type_default at h
  repeat' split at h
  all_goals
    first
    | exact Except.noConfusion h
    | (injection h with h'; subst h'; rfl)

theorem array_type_default_err {t : NestableType} {d : List Char} {e : RclMsgError}
    (h : array_type_default t d = .error e) : isServiceSpecError e = false := by
  unfold array_type_default at h
  repeat' split at h
  all_goals
    first
    | exact Except.noConfusion h
    | (injection h with h'; subst h'; rfl)

theorem validate_default_err {ty : MemberType} {d : List Char} {e : RclMsgError}
    (h : validate_default ty d = .error e) : isServiceSpecError e = false := by
  unfold validate_default at h
  split at h
  · exact nestable_type_default_err h
  · split at h
    · rename_i e' heq
      simp only [Except.error.injEq] at h
      subst h
      exact array_type_default_err heq
    · split at h
      · simp at h
      · simp only [Except.error.injEq] at h; subst h; rfl
  · exact array_type_default_err h
  · split at h
    · rename_i e' heq
      simp only [Except.error.injEq] at h
      subst h
      exact array_type_default_err heq
    · split at h
      · simp at h
      · simp only [Except.error.injEq] at h; subst h; rfl

theorem validate_value_err {ty : ConstantType} {v : List Char} {e : RclMsgError}
    (h : validate_value ty v = .error e) : isServiceSpecError e = false := by
  unfold validate_value at h
  repeat' split at h
  all_goals
    first
    | exact Except.noConfusion h
    | (injection h with h'; subst h'; rfl)

theorem member_def_err {line : List Char} {e : RclMsgError}
    (h : member_def line = .error e) : isServiceSpecError e = false := by
  unfold member_def at h
  split at h
  · simp only [Except.error.injEq] at h; subst h; rfl
  · simp at h
  · split at h
    · rename_i e' heq
      simp only [Except.error.injEq] at h
      subst h
      exact validate_default_err heq
    · simp at h

theorem constant_def_err {line : List Char} {e : RclMsgError}
    (h : constant_def line = .error e) : isServiceSpecError e = false := by
  unfold constant_def at h
  split at h
  · simp only [Except.error.injEq] at h; subst h; rfl
  · split at h
    · rename_i e' heq
      simp only [Except.error.injEq] at h
      subst h
      exact validate_value_err heq
    · simp at h

theorem parseLines_err :
    ∀ {ls : List (List Char)} {e : RclMsgError},
      parseLines ls = .error e → isServiceSpecError e = false := by
  intro ls
  induction ls with
  | nil => intro e h; simp [parseLines] at h
  | cons l rest ih =>
    intro e h
    unfold parseLines at h
    split at h
    · exact ih h
    · split at h
      · split at h
        · rename_i e' heq
          simp only [Except.error.injEq] at h
          subst h
          exact constant_def_err heq
        · split at h
          · rename_i e' heq
            simp only [Except.error.injEq] at h
            subst h
            exact ih heq
          · simp at h
      · split at h
        · rename_i e' heq
          simp only [Except.error.injEq] at h
          subst h
          exact member_def_err heq
        · split at h
          · rename_i e' heq
            simp only [Except.error.injEq] at h
            subst h
            exact ih heq
          · simp at h

theorem parse_message_string_err {pkg name body : List Char} {e : RclMsgError}
    (h : parse_message_string pkg name body = .error e) :
    isServiceSpecError e = false := by
  unfold parse_message_string at h
  split at h
  · rename_i e' heq
    simp only [Except.error.injEq] at h
    subst h
    exact parseLines_err heq
  · simp at h

/-- C1 amended: splitting happens at the first occurrence of the substring
`"---\n"`.  When the body is `A ++ "---\n" ++ B` with no earlier occurrence,
the request is parsed from `A` (named with the `_Request` suffix) and the
response from `B` (`_Response` suffix); a body with no occurrence fails
with the structural separator error; and a body whose leftover text still
holds a separator line fails with a message-grammar error — never with the
structural error, because message parsing cannot produce it. -/
theorem c1_service_split :
    (∀ pkg srv A B : List Char,
       occursBefore srvSep (A ++ srvSep ++ B) A.length = false →
       parse_service_string pkg srv (A ++ srvSep ++ B) =
         match parse_message_string pkg (srv ++ "_Request".toList) A with
         | .error e => .error e
         | .ok request =>
           match parse_message_string pkg (srv ++ "_Response".toList) B with
           | .error e => .error e
           | .ok response => .ok ⟨pkg, srv, request, response⟩) ∧
    (∀ pkg srv body : List Char, containsSub srvSep body = false →
       parse_service_string pkg srv body =
         .error (.invalidServiceSpecification (serviceSepErrText pkg srv))) ∧
    (∀ (pkg name b : List Char) (e : RclMsgError),
       parse_message_string pkg name b = .error e → isServiceSpecError e = false) := by
  refine ⟨?_, ?_, fun p n b e h => parse_message_string_err h⟩
  · intro pkg srv A B hocc
    unfold parse_service_string
    rw [splitOnce_at (by decide) A B hocc]
  · intro pkg srv body hnone
    have hiff := splitOnce_isSome srvSep body
    rw [hnone] at hiff
    unfold parse_service_string
    cases hsp : splitOnceList srvSep body with
    | none => rfl
    | some x => rw [hsp] at hiff; simp at hiff

/-- Counterexample to C1 as stated: a body with two separators fails, but
with a member-grammar error on the leftover "---" line, not with the
structural separator error. -/
theorem c1_counterexample :
    parse_service_string "p".toList "S".toList "---\n---\n".toList =
      .error (.parseMemberError "---".toList) ∧
    isServiceSpecError (.parseMemberError "---".toList) = false := ⟨by decide, rfl⟩

/-- Witness for C1 on a separator-free body (zero separators: structural
error) and a one-separator body. -/
theorem c1_witness :
    parse_service_string "p".toList "S".toList "int32 aaa\n".toList =
      .error (.invalidServiceSpecification
        (serviceSepErrText "p".toList "S".toList)) ∧
    parse_service_string "p".toList "S".toList
        ("int32 aaa\n".toList ++ srvSep ++ "int64 bbb\n".toList) =
      match parse_message_string "p".toList ("S".toList ++ "_Request".toList)
          "int32 aaa\n".toList with
      | .error e => .error e
      | .ok request =>
        match parse_message_string "p".toList ("S".toList ++ "_Response".toList)
            "int64 bbb\n".toList with
        | .error e => .error e
        | .ok response => .ok ⟨"p".toList, "S".toList, request, response⟩ :=
  ⟨c1_service_split.2.1 "p".toList "S".toList "int32 aaa\n".toList (by decide),
   c1_service_split.1 "p".toList "S".toList "int32 aaa\n".toList "int64 bbb\n".toList
     (by decide)⟩

/-- Counterexample to C7 as stated: the service parser does not append a
trailing newline before splitting.  The body `"---"` (a final separator
line without a terminating newline) is left as `"---"` by the service
preprocessing, the parse fails, whereas after full fix_newlines
normalization the same body parses successfully — so the service dialect
does drop a final line that lacks a terminating newline. -/
theorem c7_counterexample :
    crlf2lf "---".toList = "---".toList ∧
    ("---".toList).getLast? ≠ some '\n' ∧
    isErrB (parse_service_file "p".toList "S".toList "---".toList) = true ∧
    isOkB (parse_service_string "p".toList "S".toList (fix_newlines "---".toList)) = true :=
  ⟨by decide, by decide, by decide, by decide⟩

/-- C7 amended: fix_newlines (used by the action parser and the modelled
message parser) always yields text ending in a newline, and the action
parser is therefore insensitive to a missing final newline; the service
parser only converts CRLF pairs (parse_service_file equals
parse_service_string after crlf2lf) and appends nothing. -/
theorem c7_newline_normalization :
    (∀ text : List Char, (fix_newlines text).getLast? = some '\n') ∧
    (∀ pkg srv contents : List Char,
       parse_service_file pkg srv contents =
         parse_service_string pkg srv (crlf2lf contents)) ∧
    parse_action_string "p".toList "A".toList "---\n---".toList =
      parse_action_string "p".toList "A".toList "---\n---\n".toList ∧
    isOkB (parse_action_string "p".toList "A".toList "---\n---".toList) = true := by
  refine ⟨?_, fun _ _ _ => rfl, by decide, by decide⟩
  intro text
  unfold fix_newlines
  split
  · assumption
  · exact List.getLast?_concat _

theorem parseAllFiles_length {α : Type}
    {f : List Char → List Char → Except RclMsgError α}
    {xs : List (List Char × List Char)} {ys : List α}
    (h : parseAllFiles f xs = .ok ys) : ys.length = xs.length := by
  induction xs generalizing ys with
  | nil =>
    unfold parseAllFiles at h
    injection h with h'
    subst h'
    rfl
  | cons x xs ih =>
    obtain ⟨stem, contents⟩ := x
    unfold parseAllFiles at h
    split at h
    · exact Except.noConfusion h
    · split at h
      · exact Except.noConfusion h
      · rename_i a _ as heq
        injection h with h'
        subst h'
        simp [ih heq]

/-- C10: load_package_dir returns Ok only when the assembled package has no
messages, services or actions (which forces the directory to contain no
parsable definition files at all); whenever any dialect file is present —
in particular whenever at least one definition would parse successfully —
the function returns an error. -/
theorem c10_load_package_dir :
    (∀ (d : PackageDirData) (p : Package), load_package_dir d = .ok p →
       p.messages = [] ∧ p.services = [] ∧ p.actions = [] ∧
       d.msgFiles = [] ∧ d.srvFiles = [] ∧ d.actionFiles = []) ∧
    (∀ d : PackageDirData,
       d.msgFiles ≠ [] ∨ d.srvFiles ≠ [] ∨ d.actionFiles ≠ [] →
       isErrB (load_package_dir d) = true) := by
  constructor
  · intro d p h
    unfold load_package_dir at h
    cases hm : parseAllFiles (parse_message_file d.name) d.msgFiles with
    | error e => rw [hm] at h; exact Except.noConfusion h
    | ok msgs =>
      rw [hm] at h
      dsimp only at h
      cases hs : parseAllFiles (parse_service_file d.name) d.srvFiles with
      | error e => rw [hs] at h; exact Except.noConfusion h
      | ok srvs =>
        rw [hs] at h
        dsimp only at h
        cases ha : parseAllFiles (parse_action_string d.name) d.actionFiles with
        | error e => rw [ha] at h; exact Except.noConfusion h
        | ok acts =>
          rw [ha] at h
          dsimp only at h
          split at h
          · rename_i hemp
            injection h with h'
            subst h'
            simp only [Package.is_empty, Bool.and_eq_true, List.isEmpty_iff] at hemp
            obtain ⟨⟨h1, h2⟩, h3⟩ := hemp
            refine ⟨h1, h2, h3, ?_, ?_, ?_⟩
            · have hl := parseAllFiles_length hm
              rw [h1] at hl
              exact List.length_eq_zero.mp hl.symm
            · have hl := parseAllFiles_length hs
              rw [h2] at hl
              exact List.length_eq_zero.mp hl.symm
            · have hl := parseAllFiles_length ha
              rw [h3] at hl
              exact List.length_eq_zero.mp hl.symm
          · exact Except.noConfusion h
  · intro d hne
    unfold load_package_dir
    cases hm : parseAllFiles (parse_message_file d.name) d.msgFiles with
    | error e => rfl
    | ok msgs =>
      dsimp only
      cases hs : parseAllFiles (parse_service_file d.name) d.srvFiles with
      | error e => rfl
      | ok srvs =>
        dsimp only
        cases ha : parseAllFiles (parse_action_string d.name) d.actionFiles with
        | error e => rfl
        | ok acts =>
          dsimp only
          have hemp : Package.is_empty ⟨d.name, msgs, srvs, acts⟩ = false := by
            rcases hne with h | h | h
            · cases hb : msgs.isEmpty with
              | false => simp [Package.is_empty, hb]
              | true =>
                exfalso
                have hl := parseAllFiles_length hm
                rw [List.isEmpty_iff.mp hb] at hl
                exact h (List.length_eq_zero.mp hl.symm)
            · cases hb : srvs.isEmpty with
              | false => simp [Package.is_empty, hb]
              | true =>
                exfalso
                have hl := parseAllFiles_length hs
                rw [List.isEmpty_iff.mp hb] at hl
                exact h (List.length_eq_zero.mp hl.symm)
            · cases hb : acts.isEmpty with
              | false => simp [Package.is_empty, hb]
              | true =>
                exfalso
                have hl := parseAllFiles_length ha
                rw [List.isEmpty_iff.mp hb] at hl
                exact h (List.length_eq_zero.mp hl.symm)
          rw [if_neg (by rw [hemp]; exact Bool.false_ne_true)]
          rfl

/-- Witness for C10: a directory with one well-formed message file (which
parses successfully) still makes load_package_dir fail. -/
theorem c10_witness :
    isErrB (load_package_dir
      ⟨"p".toList, [("M".toList, "int32 aaa\n".toList)], [], []⟩) = true :=
  c10_load_package_dir.2
    ⟨"p".toList, [("M".toList, "int32 aaa\n".toList)], [], []⟩
    (Or.inl (by decide))

end RclMsg
